import Mathlib

/-!
Verification development for the `rate-limiter` repository
(`rate_limiter/sync_rate_limiter.py`, `rate_limiter/async_rate_limiter.py`,
`rate_limiter/limiter_context.py`).

The repository implements one moving-window rate limiter twice — a
thread-blocking realization (`sync_rate_limiter.RateLimiter`) and an
asyncio realization (`async_rate_limiter.RateLimiter`) — plus a
composition layer (`limiter_context.py`).

The shared stateful core (semaphore `_sema`, completion-timestamp queue
`_end_time_q`, waiter counter `_waiters`, broken flag
`_release_worker_exception` / `_broken_event`, background worker
`_release_thread` / `_release_task`) is embedded as a labelled transition
system `Step` on `LimiterState`.  The guards of each constructor are the
union of what the two realizations allow, so every execution of either
realization is a path of `Step`; invariants proved over `Step` therefore
hold for both.  Realization-specific control flow (the sync `acquire`
polling loop, the sync `release` assertion, construction-time asserts,
the `limiters_context` context manager and `get_limiters` registry) is
embedded as executable functions further below.

Time is modelled by `ℚ` and advances through explicit `tick` steps;
`time.time()` reads the current `now` field.
-/

/-- Entries of the sync limiter's `_end_time_q`: either a completion
timestamp pushed by `release` (line 150) or the `Terminator` sentinel
pushed by `join` (line 63).  The async `_end_time_q` deque holds only
timestamps and never a terminator. -/
inductive QEntry where
  | ts (t : ℚ)
  | term
deriving DecidableEq

/-- The real completion timestamps of a queue, in order, terminator
sentinels skipped. -/
def realTs (q : List QEntry) : List ℚ :=
  q.filterMap (fun e => match e with | .ts t => some t | .term => none)

/-- State of one moving-window limiter, shared by the two realizations.
`free` is the semaphore value `_sema`, `held` the (ghost) number of
permits currently held by callers, `waiters` the `_waiters` counter,
`queue` the `_end_time_q`, `completions` the (ghost) full history of
completion timestamps ever recorded, `broken` the
`_release_worker_exception is not None` / `_broken_event.is_set()`
observable, and `workerActive` whether `_release_thread` /
`_release_task` is currently set. -/
structure LimiterState where
  maxRate : Nat
  periodS : ℚ
  now : ℚ
  free : Nat
  held : Nat
  waiters : Nat
  queue : List QEntry
  completions : List ℚ
  broken : Bool
  workerActive : Bool
deriving DecidableEq

/-- The state built by `__init__` after its asserts pass: semaphore at
`max_rate`, empty queue, no waiters, healthy, no worker. -/
def mkState (maxRate : Nat) (periodS : ℚ) : LimiterState :=
  { maxRate := maxRate
    periodS := periodS
    now := 0
    free := maxRate
    held := 0
    waiters := 0
    queue := []
    completions := []
    broken := false
    workerActive := false }

/-- One atomic step of a limiter, in either realization.

* `tick`: wall-clock time advances (monotonically).
* `beginAcquire`: a caller enters `acquire` / `__aenter__`: `_waiters`
  is incremented (sync line 81, async line 82); the sync `acquire` also
  lazily spawns the release worker (lines 78–80), so `workerActive`
  becomes true.
* `acquireOk`: a waiting caller wins `_sema.acquire()`: the semaphore is
  decremented and the caller now holds a permit; `_waiters` is
  decremented on the way out (sync line 96, async line 92).
* `acquireAbort`: a waiting caller leaves without a permit (timeout,
  broken detection, or the async broken-event branch): only `_waiters`
  is decremented.
* `releasePermit`: `release` / `__aexit__` appends `time.time()` to
  `_end_time_q` (sync line 150, async line 131); the async release also
  lazily spawns `_release_worker` (async lines 133–137).
* `workerPop`: the worker sees `now - oldest ≥ period_s` for the queue
  head, pops it and releases one semaphore permit (sync lines 116–127,
  async lines 104–110).
* `workerExitTerm`: the sync worker returns upon seeing the
  `Terminator` at the queue head (sync lines 118–119), clearing
  `_release_thread` in its `finally` (line 139).
* `workerExitEmpty`: the async worker returns when the deque is empty
  (async line 104 guard), clearing `_release_task` (line 122).
* `workerFail`: the worker dies on an unexpected exception: the broken
  flag is set and the worker handle cleared (sync lines 133–139, async
  lines 115–122).
* `placeTerminator`: sync `join`, after `_waiters` reached zero, pushes
  the `Terminator` (lines 59–63). -/
inductive Step : LimiterState → LimiterState → Prop where
  | tick (σ : LimiterState) (d : ℚ) (hd : 0 ≤ d) :
      Step σ { σ with now := σ.now + d }
  | beginAcquire (σ : LimiterState) :
      Step σ { σ with waiters := σ.waiters + 1, workerActive := true }
  | acquireOk (σ : LimiterState) (hw : 1 ≤ σ.waiters) (hf : 1 ≤ σ.free) :
      Step σ { σ with waiters := σ.waiters - 1, free := σ.free - 1,
                      held := σ.held + 1 }
  | acquireAbort (σ : LimiterState) (hw : 1 ≤ σ.waiters) :
      Step σ { σ with waiters := σ.waiters - 1 }
  | releasePermit (σ : LimiterState) (hh : 1 ≤ σ.held) :
      Step σ { σ with held := σ.held - 1,
                      queue := σ.queue ++ [QEntry.ts σ.now],
                      completions := σ.completions ++ [σ.now],
                      workerActive := true }
  | workerPop (σ : LimiterState) (t : ℚ) (rest : List QEntry)
      (hq : σ.queue = QEntry.ts t :: rest)
      (hexp : σ.periodS ≤ σ.now - t) (hw : σ.workerActive = true) :
      Step σ { σ with queue := rest, free := σ.free + 1 }
  | workerExitTerm (σ : LimiterState) (rest : List QEntry)
      (hq : σ.queue = QEntry.term :: rest) (hw : σ.workerActive = true) :
      Step σ { σ with workerActive := false }
  | workerExitEmpty (σ : LimiterState) (hq : σ.queue = [])
      (hw : σ.workerActive = true) :
      Step σ { σ with workerActive := false }
  | workerFail (σ : LimiterState) (hw : σ.workerActive = true) :
      Step σ { σ with broken := true, workerActive := false }
  | placeTerminator (σ : LimiterState) (hw : σ.waiters = 0) :
      Step σ { σ with queue := σ.queue ++ [QEntry.term] }

/-- The states a limiter constructed with `RateLimiter(c, w, logger)` can
reach. -/
def Reachable (c : Nat) (w : ℚ) (σ : LimiterState) : Prop :=
  Relation.ReflTransGen Step (mkState c w) σ

/-- Decidable test for a completion timestamp lying in the half-open
window `(a, a + w]`. -/
def inWin (a w s : ℚ) : Bool :=
  decide (a < s) && decide (s ≤ a + w)

/-- Inductive invariant of the limiter machine:
1. the `capacity`/`window` parameters are never changed;
2. conservation: semaphore permits + held permits + queued completions
   equal `capacity`;
3. the completion history splits into popped timestamps — each expired,
   i.e. at least `period_s` old — followed by the queued ones, in order;
4. every recorded completion lies in the past;
5. the moving-window bound: no window of length `period_s` contains more
   than `capacity` completions;
6. when the worker is not running on a healthy limiter, the queue is
   empty or its head is the shutdown terminator (it has been flushed). -/
def LimInv (c : Nat) (w : ℚ) (σ : LimiterState) : Prop :=
  σ.maxRate = c ∧ σ.periodS = w ∧
  σ.free + σ.held + (realTs σ.queue).length = c ∧
  (∃ popped, σ.completions = popped ++ realTs σ.queue ∧
      ∀ s ∈ popped, s + w ≤ σ.now) ∧
  (∀ s ∈ σ.completions, s ≤ σ.now) ∧
  (∀ a : ℚ, σ.completions.countP (fun s => inWin a w s) ≤ c) ∧
  (σ.workerActive = false → σ.broken = false →
      σ.queue = [] ∨ σ.queue.head? = some QEntry.term)

theorem realTs_append (q r : List QEntry) :
    realTs (q ++ r) = realTs q ++ realTs r := by
  simp [realTs]

theorem realTs_ts_cons (t : ℚ) (rest : List QEntry) :
    realTs (QEntry.ts t :: rest) = t :: realTs rest := by
  simp [realTs]

theorem realTs_term (rest : List QEntry) :
    realTs (QEntry.term :: rest) = realTs rest := by
  simp [realTs]

theorem limInv_mkState (c : Nat) (w : ℚ) : LimInv c w (mkState c w) := by
  refine ⟨rfl, rfl, by simp [mkState, realTs], ⟨[], by simp [mkState, realTs], by simp⟩,
    by simp [mkState], by simp [mkState], by simp [mkState]⟩

theorem countP_window_zero (popped : List ℚ) (now a w : ℚ)
    (hpopped : ∀ s ∈ popped, s + w ≤ now) (hnow : now ≤ a + w) :
    popped.countP (fun s => inWin a w s) = 0 := by
  refine List.countP_eq_zero.mpr ?_
  intro s hs
  have h1 : s + w ≤ now := hpopped s hs
  have h2 : s ≤ a := by linarith
  simp [inWin]
  intro h3
  exact absurd h3 (not_lt.mpr h2)

theorem limInv_step (c : Nat) (w : ℚ) (σ σ' : LimiterState)
    (hinv : LimInv c w σ) (hstep : Step σ σ') : LimInv c w σ' := by
  obtain ⟨hmr, hps, hsum, ⟨popped, hsplit, hpop⟩, hpast, hwin, hflush⟩ := hinv
  cases hstep with
  | tick d hd =>
      refine ⟨hmr, hps, hsum, ⟨popped, hsplit, ?_⟩, ?_, hwin, hflush⟩
      · intro s hs
        have h1 := hpop s hs
        show s + w ≤ σ.now + d
        linarith
      · intro s hs
        have h1 := hpast s hs
        show s ≤ σ.now + d
        linarith
  | beginAcquire =>
      exact ⟨hmr, hps, hsum, ⟨popped, hsplit, hpop⟩, hpast, hwin,
        fun h _ => Bool.noConfusion h⟩
  | acquireOk hw hf =>
      refine ⟨hmr, hps, ?_, ⟨popped, hsplit, hpop⟩, hpast, hwin, hflush⟩
      show σ.free - 1 + (σ.held + 1) + (realTs σ.queue).length = c
      omega
  | acquireAbort hw =>
      exact ⟨hmr, hps, hsum, ⟨popped, hsplit, hpop⟩, hpast, hwin, hflush⟩
  | releasePermit hh =>
      refine ⟨hmr, hps, ?_, ⟨popped, ?_, hpop⟩, ?_, ?_,
        fun h _ => Bool.noConfusion h⟩
      · show σ.free + (σ.held - 1) +
            (realTs (σ.queue ++ [QEntry.ts σ.now])).length = c
        have hlen : (realTs (σ.queue ++ [QEntry.ts σ.now])).length =
            (realTs σ.queue).length + 1 := by
          rw [realTs_append]; simp [realTs]
        omega
      · show σ.completions ++ [σ.now] = popped ++ realTs (σ.queue ++ [QEntry.ts σ.now])
        rw [realTs_append, hsplit]
        simp [realTs]
      · intro s hs
        rcases List.mem_append.mp hs with h | h
        · have := hpast s h
          show s ≤ σ.now
          exact this
        · have : s = σ.now := by simpa using h
          show s ≤ σ.now
          simp [this]
      · intro a
        show (σ.completions ++ [σ.now]).countP (fun s => inWin a w s) ≤ c
        rw [List.countP_append]
        by_cases hcaseB : inWin a w σ.now = true
        · have hle : a < σ.now ∧ σ.now ≤ a + w := by
            have := hcaseB
            simp only [inWin, Bool.and_eq_true, decide_eq_true_eq] at this
            exact this
          have hz : popped.countP (fun s => inWin a w s) = 0 :=
            countP_window_zero popped σ.now a w hpop hle.2
          have hq1 : (realTs σ.queue).countP (fun s => inWin a w s) ≤
              (realTs σ.queue).length := List.countP_le_length _
          have hcnt : σ.completions.countP (fun s => inWin a w s) ≤
              (realTs σ.queue).length := by
            rw [hsplit, List.countP_append, hz]
            omega
          have hsingle : List.countP (fun s => inWin a w s) [σ.now] = 1 := by
            simp [List.countP_cons, hcaseB]
          omega
        · have hcase' : inWin a w σ.now = false := by
            simpa using hcaseB
          have hsingle : List.countP (fun s => inWin a w s) [σ.now] = 0 := by
            simp [List.countP_cons, hcase']
          have := hwin a
          omega
  | workerPop t rest hq hexp hw =>
      have hq' : realTs σ.queue = t :: realTs rest := by
        rw [hq, realTs_ts_cons]
      have hlen : (realTs σ.queue).length = (realTs rest).length + 1 := by
        rw [hq']; simp
      refine ⟨hmr, hps, ?_, ⟨popped ++ [t], ?_, ?_⟩, hpast, hwin, ?_⟩
      · show σ.free + 1 + σ.held + (realTs rest).length = c
        omega
      · show σ.completions = (popped ++ [t]) ++ realTs rest
        rw [hsplit, hq']
        simp
      · intro s hs
        rcases List.mem_append.mp hs with h | h
        · exact hpop s h
        · have hst : s = t := by simpa using h
          rw [hps] at hexp
          show s + w ≤ σ.now
          rw [hst]
          linarith
      · intro h
        rw [hw] at h
        exact Bool.noConfusion h
  | workerExitTerm rest hq hw =>
      refine ⟨hmr, hps, hsum, ⟨popped, hsplit, hpop⟩, hpast, hwin, ?_⟩
      intro _ _
      right
      show σ.queue.head? = some QEntry.term
      rw [hq]
      rfl
  | workerExitEmpty hq hw =>
      refine ⟨hmr, hps, hsum, ⟨popped, hsplit, hpop⟩, hpast, hwin, ?_⟩
      intro _ _
      left
      exact hq
  | workerFail hw =>
      exact ⟨hmr, hps, hsum, ⟨popped, hsplit, hpop⟩, hpast, hwin,
        fun _ h => Bool.noConfusion h⟩
  | placeTerminator hw =>
      have hreal : realTs (σ.queue ++ [QEntry.term]) = realTs σ.queue := by
        rw [realTs_append]; simp [realTs]
      refine ⟨hmr, hps, ?_, ⟨popped, ?_, hpop⟩, hpast, hwin, ?_⟩
      · show σ.free + σ.held + (realTs (σ.queue ++ [QEntry.term])).length = c
        rw [hreal]
        exact hsum
      · show σ.completions = popped ++ realTs (σ.queue ++ [QEntry.term])
        rw [hreal]
        exact hsplit
      · intro ha hb
        rcases hflush ha hb with h | h
        · right
          show (σ.queue ++ [QEntry.term]).head? = some QEntry.term
          rw [h]
          rfl
        · right
          show (σ.queue ++ [QEntry.term]).head? = some QEntry.term
          cases hqe : σ.queue with
          | nil => rfl
          | cons e tl =>
              rw [hqe] at h
              have he : e = QEntry.term := by simpa using h
              simp [he]

theorem reachable_limInv (c : Nat) (w : ℚ) (σ : LimiterState)
    (h : Reachable c w σ) : LimInv c w σ := by
  induction h with
  | refl => exact limInv_mkState c w
  | tail hstep hprev ih => exact limInv_step c w _ _ ih hprev

/-- C1: for every limiter constructed with capacity `c` and window `w`,
and every execution of interleaved acquire/release operations (every
reachable state of the `Step` machine, whose worker pops a completion
and returns its permit only once at least `w` has elapsed since that
oldest completion, oldest-first), the number of operations whose
completion timestamp falls inside any interval `(a, a + w]` never
exceeds `c`. -/
theorem c1_moving_window_bound (c : Nat) (w : ℚ) (σ : LimiterState) (a : ℚ)
    (h : Reachable c w σ) :
    σ.completions.countP (fun s => inWin a w s) ≤ c :=
  (reachable_limInv c w σ h).2.2.2.2.2.1 a

/-- A state of a capacity-1, window-1 limiter after one full
acquire/release cycle and one worker expiry one second later. -/
def runC1State : LimiterState :=
  { maxRate := 1, periodS := 1, now := 1, free := 1, held := 0, waiters := 0,
    queue := [], completions := [0], broken := false, workerActive := true }

def runC1A : LimiterState :=
  { maxRate := 1, periodS := 1, now := 0, free := 1, held := 0, waiters := 1,
    queue := [], completions := [], broken := false, workerActive := true }

def runC1B : LimiterState :=
  { maxRate := 1, periodS := 1, now := 0, free := 0, held := 1, waiters := 0,
    queue := [], completions := [], broken := false, workerActive := true }

def runC1C : LimiterState :=
  { maxRate := 1, periodS := 1, now := 0, free := 0, held := 0, waiters := 0,
    queue := [QEntry.ts 0], completions := [0], broken := false,
    workerActive := true }

def runC1D : LimiterState :=
  { maxRate := 1, periodS := 1, now := 1, free := 0, held := 0, waiters := 0,
    queue := [QEntry.ts 0], completions := [0], broken := false,
    workerActive := true }

theorem runC1_reachable : Reachable 1 1 runC1State := by
  have h1 := Step.beginAcquire (mkState 1 1)
  have e1 :
      ({ mkState 1 1 with
          waiters := (mkState 1 1).waiters + 1,
          workerActive := true } : LimiterState) = runC1A := by
    simp [mkState, runC1A]
  rw [e1] at h1
  have h2 := Step.acquireOk runC1A (by simp [runC1A]) (by simp [runC1A])
  have e2 :
      ({ runC1A with
          waiters := runC1A.waiters - 1,
          free := runC1A.free - 1,
          held := runC1A.held + 1 } : LimiterState) = runC1B := by
    simp [runC1A, runC1B]
  rw [e2] at h2
  have h3 := Step.releasePermit runC1B (by simp [runC1B])
  have e3 :
      ({ runC1B with
          held := runC1B.held - 1,
          queue := runC1B.queue ++ [QEntry.ts runC1B.now],
          completions := runC1B.completions ++ [runC1B.now],
          workerActive := true } : LimiterState) = runC1C := by
    simp [runC1B, runC1C]
  rw [e3] at h3
  have h4 := Step.tick runC1C 1 (by norm_num)
  have e4 :
      ({ runC1C with now := runC1C.now + 1 } : LimiterState) = runC1D := by
    simp [runC1C, runC1D]
  rw [e4] at h4
  have h5 := Step.workerPop runC1D 0 [] (by simp [runC1D]) (by simp [runC1D])
    (by simp [runC1D])
  have e5 :
      ({ runC1D with
          queue := ([] : List QEntry),
          free := runC1D.free + 1 } : LimiterState) = runC1State := by
    simp [runC1D, runC1State]
  rw [e5] at h5
  exact Relation.ReflTransGen.tail (Relation.ReflTransGen.tail
    (Relation.ReflTransGen.tail (Relation.ReflTransGen.tail
      (Relation.ReflTransGen.tail Relation.ReflTransGen.refl h1) h2) h3) h4) h5

/-- Witness for C1 at a concrete run: one completion recorded at time 0
lies in the window `(-1, 0]`, and the bound 1 holds. -/
theorem c1_moving_window_bound_witness :
    runC1State.completions.countP (fun s => inWin (-1) 1 s) ≤ 1 :=
  c1_moving_window_bound 1 1 runC1State (-1) runC1_reachable

/-- C7: in every reachable state, free gate permits plus held permits
plus completions in cool-down equal the capacity, and consequently at
most `capacity` permits are concurrently held. -/
theorem c7_permit_conservation (c : Nat) (w : ℚ) (σ : LimiterState)
    (h : Reachable c w σ) :
    σ.free + σ.held + (realTs σ.queue).length = c ∧ σ.held ≤ c := by
  have hsum := (reachable_limInv c w σ h).2.2.1
  exact ⟨hsum, by omega⟩

/-- A state of a capacity-2, window-1 limiter with one permit held and
one free. -/
def runC7State : LimiterState :=
  { maxRate := 2, periodS := 1, now := 0, free := 1, held := 1, waiters := 0,
    queue := [], completions := [], broken := false, workerActive := true }

def runC7A : LimiterState :=
  { maxRate := 2, periodS := 1, now := 0, free := 2, held := 0, waiters := 1,
    queue := [], completions := [], broken := false, workerActive := true }

theorem runC7_reachable : Reachable 2 1 runC7State := by
  have h1 := Step.beginAcquire (mkState 2 1)
  have e1 :
      ({ mkState 2 1 with
          waiters := (mkState 2 1).waiters + 1,
          workerActive := true } : LimiterState) = runC7A := by
    simp [mkState, runC7A]
  rw [e1] at h1
  have h2 := Step.acquireOk runC7A (by simp [runC7A]) (by simp [runC7A])
  have e2 :
      ({ runC7A with
          waiters := runC7A.waiters - 1,
          free := runC7A.free - 1,
          held := runC7A.held + 1 } : LimiterState) = runC7State := by
    simp [runC7A, runC7State]
  rw [e2] at h2
  exact Relation.ReflTransGen.tail
    (Relation.ReflTransGen.tail Relation.ReflTransGen.refl h1) h2

/-- Witness for C7 at a concrete run with one held permit. -/
theorem c7_permit_conservation_witness :
    runC7State.free + runC7State.held + (realTs runC7State.queue).length = 2 ∧
      runC7State.held ≤ 2 :=
  c7_permit_conservation 2 1 runC7State runC7_reachable

/-- Python-level errors raised by the embedded code. -/
inductive PyErr where
  | assertionFailed
  | nameError
deriving DecidableEq

/-- Outcome of the sync `RateLimiter.acquire` call. -/
inductive AcqOutcome where
  | acquired
  | returnedNoPermit
  | timeoutErr
  | assertErr
  | stillWaiting
deriving DecidableEq

/-- Python truthiness of the `timeout` parameter as used by
`sleep_s = timeout or 10` (sync line 89) and
`if not acquired and timeout` (sync line 92): `None` and `0` are falsy. -/
def timeoutTruthy : Option ℚ → Bool
  | none => false
  | some t => decide (t ≠ 0)

/-- The wait loop of sync `acquire` (lines 87–93), driven by an oracle
list `polls` holding one entry per iteration of
`while not acquired and not self._release_worker_exception`: the result
of `self._sema.acquire(timeout=sleep_s)` and the value of the broken
flag as re-read at the loop guard after that wait.  A successful
semaphore acquisition takes one free permit; `raise TimeoutError`
happens only when the poll failed and `timeout` is truthy; a failed poll
with the broken flag set exits the loop and the function returns with no
permit and no exception. -/
def syncAcquireLoop (hasDeadline : Bool) (σ : LimiterState) :
    List (Bool × Bool) → AcqOutcome × LimiterState
  | [] => (.stillWaiting, σ)
  | (gotSema, brokenNow) :: rest =>
      if gotSema then
        (.acquired, { σ with free := σ.free - 1, held := σ.held + 1 })
      else if hasDeadline then (.timeoutErr, σ)
      else if brokenNow then (.returnedNoPermit, σ)
      else syncAcquireLoop hasDeadline σ rest

/-- Sync `RateLimiter.acquire` (lines 74–96): asserts the limiter is not
broken (line 75), lazily spawns the release worker and increments
`_waiters` (lines 77–81), runs the wait loop, and decrements `_waiters`
in the `finally` (lines 94–96). -/
def syncAcquire (σ : LimiterState) (timeout : Option ℚ)
    (polls : List (Bool × Bool)) : AcqOutcome × LimiterState :=
  if σ.broken then (.assertErr, σ)
  else
    let r := syncAcquireLoop (timeoutTruthy timeout)
      { σ with workerActive := true, waiters := σ.waiters + 1 } polls
    (r.1, { r.2 with waiters := r.2.waiters - 1 })

theorem syncAcquireLoop_timeout (hd : Bool) (σ : LimiterState)
    (polls : List (Bool × Bool))
    (h : (syncAcquireLoop hd σ polls).1 = .timeoutErr) :
    (syncAcquireLoop hd σ polls).2 = σ ∧ hd = true := by
  induction polls with
  | nil => simp [syncAcquireLoop] at h
  | cons p rest ih =>
      obtain ⟨g, b⟩ := p
      cases g with
      | true => simp [syncAcquireLoop] at h
      | false =>
          cases hd with
          | true => simp [syncAcquireLoop]
          | false =>
              cases b with
              | true => simp [syncAcquireLoop] at h
              | false =>
                  simp only [syncAcquireLoop] at h ⊢
                  simp at h ⊢
                  exact Bool.noConfusion (ih h).2

/-- C5: a sync `acquire` whose supplied deadline elapses before a permit
frees (a failed semaphore poll under a truthy `timeout`) fails with
`TimeoutError` — the `DeadlineExceeded` of the specification — and
consumes no permit, leaving the semaphore count, the completion queue,
the held count and the waiter count unchanged; a deadline of zero or
`None` is falsy, so such a call never raises `TimeoutError` and keeps
waiting. -/
theorem c5_deadline_purity (σ : LimiterState) (timeout : Option ℚ)
    (polls : List (Bool × Bool)) (hb : σ.broken = false) :
    ((syncAcquire σ timeout polls).1 = .timeoutErr →
      (syncAcquire σ timeout polls).2.free = σ.free ∧
      (syncAcquire σ timeout polls).2.queue = σ.queue ∧
      (syncAcquire σ timeout polls).2.held = σ.held ∧
      (syncAcquire σ timeout polls).2.waiters = σ.waiters ∧
      timeoutTruthy timeout = true) ∧
    (timeoutTruthy timeout = false →
      (syncAcquire σ timeout polls).1 ≠ .timeoutErr) := by
  constructor
  · intro h
    simp only [syncAcquire, hb, Bool.false_eq_true, if_false] at h ⊢
    have := syncAcquireLoop_timeout (timeoutTruthy timeout) _ polls h
    rw [this.1]
    exact ⟨rfl, rfl, rfl, rfl, this.2⟩
  · intro hfalsy h
    simp only [syncAcquire, hb, Bool.false_eq_true, if_false] at h
    have := (syncAcquireLoop_timeout (timeoutTruthy timeout) _ polls h).2
    rw [hfalsy] at this
    exact Bool.noConfusion this

/-- Witness for C5: with `timeout=5`, one failed poll raises
`TimeoutError` and the gate, queue, held and waiter counts of a fresh
capacity-1 limiter are unchanged; with `timeout=None` the same poll
sequence does not raise. -/
theorem c5_deadline_purity_witness :
    ((syncAcquire (mkState 1 1) (some 5) [(false, false)]).2.free =
        (mkState 1 1).free ∧
      (syncAcquire (mkState 1 1) (some 5) [(false, false)]).2.queue =
        (mkState 1 1).queue) ∧
    (syncAcquire (mkState 1 1) none [(false, false)]).1 ≠
      AcqOutcome.timeoutErr := by
  constructor
  · have h := (c5_deadline_purity (mkState 1 1) (some 5) [(false, false)]
      (by simp [mkState])).1
    have houtcome : (syncAcquire (mkState 1 1) (some 5) [(false, false)]).1 =
        AcqOutcome.timeoutErr := by
      simp [syncAcquire, syncAcquireLoop, mkState, timeoutTruthy]
    have := h houtcome
    exact ⟨this.1, this.2.1⟩
  · exact (c5_deadline_purity (mkState 1 1) none [(false, false)]
      (by simp [mkState])).2 (by simp [timeoutTruthy])

/-- C2 (evaluation at the failing input): in the blocking realization an
`acquire` with no deadline that is waiting when the worker fails does
not fail with `Broken`: the semaphore poll times out, the loop guard
sees `_release_worker_exception` and exits, and `acquire` returns
normally with no permit taken and no exception raised
(`returnedNoPermit`); the same scenario with a deadline raises
`TimeoutError`, not `Broken`.  The suspending realization instead wakes
`asyncio.wait` through `_broken_evt_wait_fut` and raises
`Error(...) from self._release_worker_exception`. -/
theorem c2_sync_broken_acquire_no_error :
    (syncAcquire (mkState 1 1) none [(false, true)]).1 =
      AcqOutcome.returnedNoPermit ∧
    (syncAcquire (mkState 1 1) (some 5) [(false, true)]).1 =
      AcqOutcome.timeoutErr := by
  constructor
  · simp [syncAcquire, syncAcquireLoop, mkState, timeoutTruthy]
  · simp [syncAcquire, syncAcquireLoop, mkState, timeoutTruthy]

/-- Sync `RateLimiter.release` (lines 145–156): `assert not
self.is_broken` (line 146), then append `time.time()` to `_end_time_q`
(line 150).  The result is the raised error, if any, with the
post-state. -/
def syncRelease (σ : LimiterState) : Option PyErr × LimiterState :=
  if σ.broken then (some .assertionFailed, σ)
  else (none,
    { σ with held := σ.held - 1,
             queue := σ.queue ++ [QEntry.ts σ.now],
             completions := σ.completions ++ [σ.now] })

/-- C10: calling the blocking `release` on a broken limiter fails the
`assert not self.is_broken` before any timestamp is appended, and every
component of the limiter state — in particular the completion queue —
is unchanged. -/
theorem c10_release_broken_asserts (σ : LimiterState)
    (h : σ.broken = true) :
    syncRelease σ = (some PyErr.assertionFailed, σ) := by
  simp [syncRelease, h]

/-- A broken capacity-1 limiter with a pending completion record. -/
def brokenDemoState : LimiterState :=
  { maxRate := 1, periodS := 1, now := 2, free := 0, held := 0, waiters := 0,
    queue := [QEntry.ts 1], completions := [1], broken := true,
    workerActive := false }

/-- Witness for C10 at a concrete broken limiter. -/
theorem c10_release_broken_asserts_witness :
    syncRelease brokenDemoState = (some PyErr.assertionFailed, brokenDemoState) :=
  c10_release_broken_asserts brokenDemoState rfl

/-- `RateLimiter.__init__`, identical in both realizations (sync lines
18–45, async lines 32–59): `assert isinstance(max_rate, int) and
max_rate > 0`, `assert period_s > 0`, then the fresh state with
`_sema = Semaphore(max_rate)` and an empty `_end_time_q`.  The assert
failure realizes the `InvalidConfiguration` error of the
specification. -/
def rateLimiterNew (maxRate : Int) (periodS : ℚ) : Except PyErr LimiterState :=
  if maxRate ≤ 0 then .error .assertionFailed
  else if periodS ≤ 0 then .error .assertionFailed
  else .ok (mkState maxRate.toNat periodS)

/-- C6: construction fails (with the assert that realizes
`InvalidConfiguration`) exactly when the capacity is not a positive
integer or the window is not strictly positive; `capacity = 0` fails,
and any capacity ≥ 1 with window > 0 succeeds. -/
theorem c6_construction_validation (c : Int) (w : ℚ) :
    (rateLimiterNew c w = .error PyErr.assertionFailed ↔ c ≤ 0 ∨ w ≤ 0) ∧
    rateLimiterNew 0 w = .error PyErr.assertionFailed ∧
    (0 < c → 0 < w → rateLimiterNew c w = .ok (mkState c.toNat w)) := by
  refine ⟨?_, ?_, ?_⟩
  · unfold rateLimiterNew
    split_ifs with h1 h2
    · simp [h1]
    · simp [h1, h2]
    · simp [h1, h2]
  · unfold rateLimiterNew
    norm_num
  · intro hc hw
    unfold rateLimiterNew
    rw [if_neg (by omega), if_neg (by linarith)]

/-- Witness for C6: `RateLimiter(3, 2, logger)` succeeds and
`RateLimiter(0, 2, logger)` fails at construction. -/
theorem c6_construction_validation_witness :
    rateLimiterNew 3 2 = .ok (mkState 3 2) ∧
    rateLimiterNew 0 2 = .error PyErr.assertionFailed := by
  constructor
  · have h := (c6_construction_validation 3 2).2.2 (by norm_num) (by norm_num)
    simpa using h
  · exact (c6_construction_validation 0 2).2.1

/-- The condition under which sync `join` (lines 55–68) stops blocking:
its first loop waits for `while self._waiters`, its second for
`while self._release_thread` after pushing the `Terminator`.  (The async
`join` similarly waits on `self._waiters` and then awaits or cancels
`_release_task`.) -/
def syncJoinCanReturn (σ : LimiterState) : Bool :=
  σ.waiters == 0 && !σ.workerActive

def joinCexA : LimiterState :=
  { maxRate := 1, periodS := 1, now := 0, free := 1, held := 0, waiters := 1,
    queue := [], completions := [], broken := false, workerActive := true }

def joinCexB : LimiterState :=
  { maxRate := 1, periodS := 1, now := 0, free := 0, held := 1, waiters := 0,
    queue := [], completions := [], broken := false, workerActive := true }

def joinCexC : LimiterState :=
  { maxRate := 1, periodS := 1, now := 0, free := 0, held := 1, waiters := 0,
    queue := [QEntry.term], completions := [], broken := false,
    workerActive := true }

/-- A reachable state in which one caller still holds a permit (it is
inside its protected operation, `_waiters` already decremented) while
`join` has nothing left to wait for. -/
def joinCexState : LimiterState :=
  { maxRate := 1, periodS := 1, now := 0, free := 0, held := 1, waiters := 0,
    queue := [QEntry.term], completions := [], broken := false,
    workerActive := false }

theorem joinCex_reachable : Reachable 1 1 joinCexState := by
  have h1 := Step.beginAcquire (mkState 1 1)
  have e1 :
      ({ mkState 1 1 with
          waiters := (mkState 1 1).waiters + 1,
          workerActive := true } : LimiterState) = joinCexA := by
    simp [mkState, joinCexA]
  rw [e1] at h1
  have h2 := Step.acquireOk joinCexA (by simp [joinCexA]) (by simp [joinCexA])
  have e2 :
      ({ joinCexA with
          waiters := joinCexA.waiters - 1,
          free := joinCexA.free - 1,
          held := joinCexA.held + 1 } : LimiterState) = joinCexB := by
    simp [joinCexA, joinCexB]
  rw [e2] at h2
  have h3 := Step.placeTerminator joinCexB (by simp [joinCexB])
  have e3 :
      ({ joinCexB with
          queue := joinCexB.queue ++ [QEntry.term] } : LimiterState) =
        joinCexC := by
    simp [joinCexB, joinCexC]
  rw [e3] at h3
  have h4 := Step.workerExitTerm joinCexC [] (by simp [joinCexC]) (by simp [joinCexC])
  have e4 :
      ({ joinCexC with workerActive := false } : LimiterState) =
        joinCexState := by
    simp [joinCexC, joinCexState]
  rw [e4] at h4
  exact Relation.ReflTransGen.tail (Relation.ReflTransGen.tail
    (Relation.ReflTransGen.tail (Relation.ReflTransGen.tail
      Relation.ReflTransGen.refl h1) h2) h3) h4

/-- Counterexample to C8 as stated: a reachable state in which `join`
returns (both of its wait loops are already satisfied) while one permit
is still held by a caller, so the claim's in-flight count — callers
blocked in admission *or holding a permit* — is 1, not 0.  `_waiters`
only counts callers inside the `acquire` call itself. -/
theorem c8_join_counterexample :
    Reachable 1 1 joinCexState ∧ syncJoinCanReturn joinCexState = true ∧
      joinCexState.held = 1 :=
  ⟨joinCex_reachable, rfl, rfl⟩

/-- C8 (amended): `join` returns only once the number of callers
currently blocked inside `acquire` (`_waiters`) is zero and the
background worker has exited — which, for a healthy limiter, happens
only once the worker has flushed every completion recorded ahead of the
shutdown terminator (the queue is empty or the terminator has reached
its head). -/
theorem c8_join_guard (c : Nat) (w : ℚ) (σ : LimiterState)
    (h : Reachable c w σ) (hret : syncJoinCanReturn σ = true) :
    σ.waiters = 0 ∧ σ.workerActive = false ∧
      (σ.broken = false → σ.queue = [] ∨ σ.queue.head? = some QEntry.term) := by
  have hflush := (reachable_limInv c w σ h).2.2.2.2.2.2
  simp only [syncJoinCanReturn, Bool.and_eq_true, beq_iff_eq,
    Bool.not_eq_true'] at hret
  exact ⟨hret.1, hret.2, hflush hret.2⟩

/-- Witness for C8 (amended) at a freshly constructed limiter, where
`join` returns immediately. -/
theorem c8_join_guard_witness :
    (mkState 2 1).waiters = 0 ∧ (mkState 2 1).workerActive = false ∧
      ((mkState 2 1).broken = false →
        (mkState 2 1).queue = [] ∨
          (mkState 2 1).queue.head? = some QEntry.term) :=
  c8_join_guard 2 1 (mkState 2 1) Relation.ReflTransGen.refl rfl

/-- Events of one run of the `limiters_context` context manager
(`limiter_context.py` lines 129–151): taking and releasing
`_LIMITERS_LOCKS[service]`, acquiring member limiter `i` once
(`exit_stack.enter_context(limiter)`), the `assert num <=
limiter.max_rate` failing at member `i`, yielding to the caller's
protected block, that block raising, and `ExitStack` releasing one
permit of member `i` on unwind. -/
inductive CtxEvent where
  | lockAcq
  | lockRel
  | acq (i : Nat)
  | assertFail (i : Nat)
  | yieldCtl
  | bodyRaise
  | rel (i : Nat)
deriving DecidableEq

/-- The `for limiter in limiters` acquisition loop (lines 143–148) over
the member capacities, members indexed from `i0`.  Returns the emitted
events, the indices whose permits were entered into the `ExitStack`
(each index `num` times, in acquisition order), and whether the
`assert num <= limiter.max_rate` fired. -/
def acqPhase (num : Nat) : Nat → List Nat → List CtxEvent × List Nat × Bool
  | _, [] => ([], [], false)
  | i, cap :: rest =>
      if num ≤ cap then
        let r := acqPhase num (i + 1) rest
        (List.replicate num (CtxEvent.acq i) ++ r.1,
         List.replicate num i ++ r.2.1, r.2.2)
      else ([CtxEvent.assertFail i], [], true)

/-- Full event trace of `with limiters_context(num, limiters, service)`:
the group lock is taken first; members are acquired in order inside it;
on an assert failure the exception unwinds — the lock's `__exit__` runs,
then the `ExitStack` releases every permit already entered, in reverse;
on success the lock is released, then control is yielded, the body may
raise, and the `ExitStack` releases every permit, in reverse, on either
exit path. -/
def ctxRun (num : Nat) (caps : List Nat) (bodyOk : Bool) : List CtxEvent :=
  let r := acqPhase num 0 caps
  let releases := r.2.1.reverse.map CtxEvent.rel
  if r.2.2 then
    CtxEvent.lockAcq :: r.1 ++ CtxEvent.lockRel :: releases
  else
    CtxEvent.lockAcq :: r.1 ++ CtxEvent.lockRel :: CtxEvent.yieldCtl ::
      ((if bodyOk then [] else [CtxEvent.bodyRaise]) ++ releases)

theorem acqPhase_count_acq (num : Nat) (caps : List Nat) (i0 i : Nat) :
    (acqPhase num i0 caps).1.count (CtxEvent.acq i) =
      (acqPhase num i0 caps).2.1.count i := by
  induction caps generalizing i0 with
  | nil => simp [acqPhase]
  | cons cap rest ih =>
      by_cases hc : num ≤ cap
      · simp only [acqPhase, hc, if_true, List.count_append]
        rw [ih (i0 + 1)]
        congr 1
        by_cases hi : i = i0
        · subst hi
          simp [List.count_replicate]
        · rw [List.count_replicate, List.count_replicate]
          simp [hi, Ne.symm hi, CtxEvent.acq.injEq]
      · simp [acqPhase, hc, List.count_cons]

theorem acqPhase_no_rel (num : Nat) (caps : List Nat) (i0 i : Nat) :
    CtxEvent.rel i ∉ (acqPhase num i0 caps).1 := by
  induction caps generalizing i0 with
  | nil => simp [acqPhase]
  | cons cap rest ih =>
      by_cases hc : num ≤ cap
      · simp only [acqPhase, hc, if_true, List.mem_append]
        rintro (h | h)
        · exact absurd (List.eq_of_mem_replicate h) (by simp)
        · exact ih (i0 + 1) h
      · simp [acqPhase, hc]

theorem acqPhase_no_yield (num : Nat) (caps : List Nat) (i0 : Nat) :
    CtxEvent.yieldCtl ∉ (acqPhase num i0 caps).1 := by
  induction caps generalizing i0 with
  | nil => simp [acqPhase]
  | cons cap rest ih =>
      by_cases hc : num ≤ cap
      · simp only [acqPhase, hc, if_true, List.mem_append]
        rintro (h | h)
        · exact absurd (List.eq_of_mem_replicate h) (by simp)
        · exact ih (i0 + 1) h
      · simp [acqPhase, hc]

theorem count_rel_map (l : List Nat) (i : Nat) :
    (l.map CtxEvent.rel).count (CtxEvent.rel i) = l.count i :=
  List.count_map_of_injective l CtxEvent.rel
    (fun a b h => by simpa [CtxEvent.rel.injEq] using h) i

theorem count_acq_map_rel (l : List Nat) (i : Nat) :
    (l.map CtxEvent.rel).count (CtxEvent.acq i) = 0 := by
  rw [List.count_eq_zero]
  intro h
  obtain ⟨a, _, ha⟩ := List.mem_map.mp h
  exact CtxEvent.noConfusion ha

theorem acqPhase_not_failed (num : Nat) (caps : List Nat) (i0 : Nat)
    (h : ∀ cap ∈ caps, num ≤ cap) : (acqPhase num i0 caps).2.2 = false := by
  induction caps generalizing i0 with
  | nil => simp [acqPhase]
  | cons cap rest ih =>
      have hc : num ≤ cap := h cap (by simp)
      simp only [acqPhase, hc, if_true]
      exact ih (i0 + 1) (fun c hcmem => h c (by simp [hcmem]))

theorem acqPhase_acq_low (num : Nat) (caps : List Nat) (i0 i : Nat)
    (h : i < i0) : (acqPhase num i0 caps).1.count (CtxEvent.acq i) = 0 := by
  induction caps generalizing i0 with
  | nil => simp [acqPhase]
  | cons cap rest ih =>
      by_cases hc : num ≤ cap
      · have hne : i ≠ i0 := by omega
        simp only [acqPhase, hc, if_true, List.count_append]
        rw [ih (i0 + 1) (by omega), List.count_replicate]
        simp [hne, Ne.symm hne, CtxEvent.acq.injEq]
      · simp [acqPhase, hc, List.count_cons]

theorem acqPhase_acq_num (num : Nat) (caps : List Nat) (i0 k : Nat)
    (h : ∀ cap ∈ caps, num ≤ cap) (hk : k < caps.length) :
    (acqPhase num i0 caps).1.count (CtxEvent.acq (i0 + k)) = num := by
  induction caps generalizing i0 k with
  | nil => simp at hk
  | cons cap rest ih =>
      have hc : num ≤ cap := h cap (by simp)
      simp only [acqPhase, hc, if_true, List.count_append]
      cases k with
      | zero =>
          rw [acqPhase_acq_low num rest (i0 + 1) (i0 + 0) (by omega)]
          rw [List.count_replicate]
          simp
      | succ k' =>
          have hne : i0 + (k' + 1) ≠ i0 := by omega
          rw [List.count_replicate]
          have hstep : i0 + (k' + 1) = (i0 + 1) + k' := by omega
          rw [hstep, ih (i0 + 1) k' (fun c hc2 => h c (by simp [hc2]))
            (by simpa using hk)]
          simp [CtxEvent.acq.injEq]
          omega

theorem acqPhase_fail_mem (num : Nat) (caps : List Nat) (i0 : Nat)
    (h : ∃ cap ∈ caps, cap < num) :
    ∃ i, CtxEvent.assertFail i ∈ (acqPhase num i0 caps).1 := by
  induction caps generalizing i0 with
  | nil => simp at h
  | cons cap rest ih =>
      by_cases hc : num ≤ cap
      · obtain ⟨c, hcm, hclt⟩ := h
        rcases List.mem_cons.mp hcm with hhead | htail
        · omega
        · obtain ⟨i, hi⟩ := ih (i0 + 1) ⟨c, htail, hclt⟩
          exact ⟨i, by simp [acqPhase, hc, hi]⟩
      · exact ⟨i0, by simp [acqPhase, hc]⟩

theorem acqPhase_no_assert_of_ok (num : Nat) (caps : List Nat) (i0 i : Nat)
    (h : ∀ cap ∈ caps, num ≤ cap) :
    CtxEvent.assertFail i ∉ (acqPhase num i0 caps).1 := by
  induction caps generalizing i0 with
  | nil => simp [acqPhase]
  | cons cap rest ih =>
      have hc : num ≤ cap := h cap (by simp)
      simp only [acqPhase, hc, if_true, List.mem_append]
      rintro (hm | hm)
      · exact absurd (List.eq_of_mem_replicate hm) (by simp)
      · exact ih (i0 + 1) (fun c hc2 => h c (by simp [hc2])) hm

theorem acqPhase_failed (num : Nat) (caps : List Nat) (i0 : Nat)
    (h : ∃ cap ∈ caps, cap < num) : (acqPhase num i0 caps).2.2 = true := by
  induction caps generalizing i0 with
  | nil => simp at h
  | cons cap rest ih =>
      by_cases hc : num ≤ cap
      · obtain ⟨c, hcm, hlt⟩ := h
        rcases List.mem_cons.mp hcm with he | ht
        · omega
        · simp only [acqPhase, hc, if_true]
          exact ih (i0 + 1) ⟨c, ht, hlt⟩
      · simp [acqPhase, hc]

theorem ctxRun_head (num : Nat) (caps : List Nat) (bodyOk : Bool) :
    (ctxRun num caps bodyOk).head? = some CtxEvent.lockAcq := by
  simp only [ctxRun]
  split <;> simp

theorem ctxRun_balanced (num : Nat) (caps : List Nat) (bodyOk : Bool)
    (i : Nat) :
    (ctxRun num caps bodyOk).count (CtxEvent.rel i) =
      (ctxRun num caps bodyOk).count (CtxEvent.acq i) := by
  have h1 := acqPhase_count_acq num caps 0 i
  have h2 : (acqPhase num 0 caps).1.count (CtxEvent.rel i) = 0 :=
    List.count_eq_zero.mpr (acqPhase_no_rel num caps 0 i)
  simp only [ctxRun]
  split
  · simp [List.count_append, List.count_cons, h1, h2, count_rel_map,
      count_acq_map_rel, List.count_reverse]
  · cases bodyOk <;>
      simp [List.count_append, List.count_cons, h1, h2, count_rel_map,
        count_acq_map_rel, List.count_reverse]

/-- C4: for every composite acquisition of `num` units over member
capacities `caps` with protected-body outcome `bodyOk`:
the group lock is acquired first; when every member capacity admits
`num`, the trace is lock-acquire, the per-member acquisitions, lock
release, then the yield — the lock is released before control reaches
the caller — and each member is acquired exactly `num` times; when some
member capacity is below `num`, the `assert num <= limiter.max_rate`
fires and the caller is never yielded to; and on every exit path each
acquired permit is released exactly once back to its own limiter. -/
theorem c4_composite_acquisition (num : Nat) (caps : List Nat)
    (bodyOk : Bool) :
    (ctxRun num caps bodyOk).head? = some CtxEvent.lockAcq ∧
    (∀ i, (ctxRun num caps bodyOk).count (CtxEvent.rel i) =
        (ctxRun num caps bodyOk).count (CtxEvent.acq i)) ∧
    ((∀ cap ∈ caps, num ≤ cap) →
      (∃ l₁ l₂, ctxRun num caps bodyOk =
          CtxEvent.lockAcq :: l₁ ++
            CtxEvent.lockRel :: CtxEvent.yieldCtl :: l₂) ∧
      (∀ i, i < caps.length →
          (ctxRun num caps bodyOk).count (CtxEvent.acq i) = num)) ∧
    ((∃ cap ∈ caps, cap < num) →
      (∃ i, CtxEvent.assertFail i ∈ ctxRun num caps bodyOk) ∧
      CtxEvent.yieldCtl ∉ ctxRun num caps bodyOk) := by
  refine ⟨ctxRun_head num caps bodyOk, ctxRun_balanced num caps bodyOk,
    ?_, ?_⟩
  · intro hok
    have hnf := acqPhase_not_failed num caps 0 hok
    constructor
    · refine ⟨(acqPhase num 0 caps).1,
        (if bodyOk then [] else [CtxEvent.bodyRaise]) ++
          (acqPhase num 0 caps).2.1.reverse.map CtxEvent.rel, ?_⟩
      simp only [ctxRun, hnf]
      simp
    · intro i hi
      have hcnt := acqPhase_acq_num num caps 0 i hok (by simpa using hi)
      simp only [Nat.zero_add] at hcnt
      simp only [ctxRun, hnf]
      cases bodyOk <;>
        simp [List.count_append, List.count_cons, hcnt, count_acq_map_rel]
  · intro hbad
    have hfail : (acqPhase num 0 caps).2.2 = true :=
      acqPhase_failed num caps 0 hbad
    constructor
    · obtain ⟨i, hi⟩ := acqPhase_fail_mem num caps 0 hbad
      refine ⟨i, ?_⟩
      simp only [ctxRun, hfail]
      simp [hi]
    · intro hmem
      simp only [ctxRun, hfail, if_true] at hmem
      rcases List.mem_cons.mp hmem with h | hmem2
      · exact CtxEvent.noConfusion h
      rcases List.mem_append.mp hmem2 with h | hmem3
      · exact acqPhase_no_yield num caps 0 h
      rcases List.mem_cons.mp hmem3 with h | h
      · exact CtxEvent.noConfusion h
      · obtain ⟨a, _, ha⟩ := List.mem_map.mp h
        exact CtxEvent.noConfusion ha

/-- Witness for C4: acquiring 1 unit from members with capacities 2 and
3 whose protected body raises still yields after the lock release and
balances every release against its acquire; asking 2 units when a member
has capacity 1 never reaches the yield. -/
theorem c4_composite_acquisition_witness :
    (∃ l₁ l₂, ctxRun 1 [2, 3] false =
        CtxEvent.lockAcq :: l₁ ++
          CtxEvent.lockRel :: CtxEvent.yieldCtl :: l₂) ∧
    (ctxRun 1 [2, 3] false).count (CtxEvent.rel 0) =
      (ctxRun 1 [2, 3] false).count (CtxEvent.acq 0) ∧
    CtxEvent.yieldCtl ∉ ctxRun 2 [3, 1] true :=
  ⟨((c4_composite_acquisition 1 [2, 3] false).2.2.1 (by decide)).1,
    (c4_composite_acquisition 1 [2, 3] false).2.1 0,
    ((c4_composite_acquisition 2 [3, 1] true).2.2.2 ⟨1, by decide, by decide⟩).2⟩

/-- The members of the `LimiterServices` enumeration
(`limiter_context.py` lines 24–28). -/
inductive LimiterService where
  | calendar
  | adminSDK
  | gmail
  | people
deriving DecidableEq

/-- A `limiters_context` callable with its bound keyword arguments: the
`limiters` member list (in construction order) and the `service`. -/
structure LimiterCtxHandle where
  limiters : List LimiterState
  service : LimiterService
deriving DecidableEq

/-- The `GLOBAL_LIMITERS` table (`limiter_context.py` lines 36–58), in
the shape `{limiter_type: {service: {period_in_seconds:
rate_in_period}}}`, with `SECONDS_IN_HOUR = 3600` and
`SECONDS_IN_MINUTE = 60`. -/
def GLOBAL_LIMITERS :
    List (String × List (LimiterService × List (ℚ × Nat))) :=
  [("request",
      [(.calendar, [(3600, 41666)]),
       (.adminSDK, [(3600, 6250)]),
       (.gmail, [(100, 2000000)])]),
   ("quota",
      [(.gmail, [(60, 6944444)])])]

/-- The dictionary comprehension of `get_limiters` (lines 116–122): one
`limiters_context` callable per (limiter type, service) entry of
`GLOBAL_LIMITERS`, each holding a freshly built
`RateLimiter(units, period, logger)` per configured (period, units)
pair. -/
def buildGlobalLimiters :
    List (String × List (LimiterService × LimiterCtxHandle)) :=
  GLOBAL_LIMITERS.map (fun tyEntry =>
    (tyEntry.1, tyEntry.2.map (fun svcEntry =>
      (svcEntry.1,
        { limiters := svcEntry.2.map (fun pu => mkState pu.2 pu.1),
          service := svcEntry.1 }))))

/-- Value of the module global `_GET_LIMITERS_CALLED` at import time:
`get_limiters` declares `global _GET_LIMITERS_CALLED` (line 113) but the
module never assigns the name at module scope, so it is unbound. -/
def getLimitersFlagAtImport : Option Bool := none

/-- `get_limiters` (lines 103–125): evaluates
`assert not _GET_LIMITERS_CALLED` (line 114) — reading the name while it
is unbound raises `NameError`; reading `True` fails the assert; reading
`False` builds the limiter map and then sets the flag (line 124). -/
def get_limiters (flag : Option Bool) :
    Except PyErr
      ((List (String × List (LimiterService × LimiterCtxHandle))) ×
        Option Bool) :=
  match flag with
  | none => .error .nameError
  | some true => .error .assertionFailed
  | some false => .ok (buildGlobalLimiters, some true)

/-- C3 (evaluation at the failing input): the first `get_limiters` call
of a process does not succeed — `_GET_LIMITERS_CALLED` is never
initialized at module scope, so `assert not _GET_LIMITERS_CALLED` raises
`NameError` on every call, including the first.  Had the flag been bound
to `False` as the invoked-twice assert presumes, the call would return
one composite descriptor per configured (limiter type, service) entry
with a fresh limiter per (window, rate) pair, and a second call would
fail the assert. -/
theorem c3_get_limiters_first_call_raises :
    get_limiters getLimitersFlagAtImport = .error PyErr.nameError ∧
    get_limiters (some false) = .ok (buildGlobalLimiters, some true) ∧
    get_limiters (some true) = .error PyErr.assertionFailed :=
  ⟨rfl, rfl, rfl⟩

/-- `get_limiters_context_with_added_limiters` (lines 153–168), over an
explicit store of Python list objects addressed by index (member
limiters are identified by reference ids): it reads the existing
context's `limiters` keyword list, builds the NEW list
`method.keywords['limiters'] + limiters` at a fresh address, and returns
a context bound to that address with the same `service`.  The result is
the updated store with the new context's (limiters address, service). -/
def get_limiters_context_with_added_limiters (store : List (List Nat))
    (methodLimitersAddr : Nat) (methodService : LimiterService)
    (newLimiters : List Nat) :
    (List (List Nat)) × Nat × LimiterService :=
  (store ++ [store.getD methodLimitersAddr [] ++ newLimiters],
   store.length, methodService)

/-- C9: extending a composite descriptor returns a new descriptor whose
member list is the original members followed by the added limiters and
whose service key is unchanged, stored in a fresh list object; the
original descriptor's list object and key are untouched. -/
theorem c9_extend_group_pure (store : List (List Nat)) (addr : Nat)
    (svc : LimiterService) (newLs : List Nat) (h : addr < store.length) :
    (get_limiters_context_with_added_limiters store addr svc newLs).1[addr]? =
      store[addr]? ∧
    (get_limiters_context_with_added_limiters store addr svc
        newLs).1.getD
      (get_limiters_context_with_added_limiters store addr svc newLs).2.1 [] =
      store.getD addr [] ++ newLs ∧
    (get_limiters_context_with_added_limiters store addr svc newLs).2.2 =
      svc ∧
    (get_limiters_context_with_added_limiters store addr svc newLs).2.1 ≠
      addr := by
  refine ⟨?_, ?_, rfl, ?_⟩
  · simp only [get_limiters_context_with_added_limiters]
    exact List.getElem?_append_left h
  · simp only [get_limiters_context_with_added_limiters, List.getD]
    rw [List.get?_concat_length]
    rfl
  · simp only [get_limiters_context_with_added_limiters]
    omega

/-- Witness for C9 at a concrete store of two member lists. -/
theorem c9_extend_group_pure_witness :
    (get_limiters_context_with_added_limiters [[7], [8]] 0
        LimiterService.gmail [9]).1[0]? = ([[7], [8]] : List (List Nat))[0]? ∧
    (get_limiters_context_with_added_limiters [[7], [8]] 0
        LimiterService.gmail [9]).1.getD
      (get_limiters_context_with_added_limiters [[7], [8]] 0
        LimiterService.gmail [9]).2.1 [] =
      ([[7], [8]] : List (List Nat)).getD 0 [] ++ [9] ∧
    (get_limiters_context_with_added_limiters [[7], [8]] 0
        LimiterService.gmail [9]).2.2 = LimiterService.gmail ∧
    (get_limiters_context_with_added_limiters [[7], [8]] 0
        LimiterService.gmail [9]).2.1 ≠ 0 :=
  c9_extend_group_pure [[7], [8]] 0 LimiterService.gmail [9] (by decide)
